import Mathlib

/-!
Verification of `migrate_logger_fields` from `src/migrate_logger.py`
(kube-zen/zen-watcher).

Strings are modelled as `List Char` (Python `str`).  A document is split
into lines on the newline character exactly as Python's
`content.split('\n')` does, and re-joined with `'\n'.join`.  The Python
regular expressions used by the script are deterministic at every
backtracking point (each `\s*` / greedy class is followed by a character
outside the class), so they are embedded as explicit scanning functions.
-/

/-- Python's `\s` class (ASCII range): space, tab, newline, carriage
return, vertical tab, form feed. -/
def isSpaceB (c : Char) : Bool :=
  c = ' ' || c = '\t' || c = '\n' || c = '\r' || c = '\x0b' || c = '\x0c'

/-- Python's `\w` class (ASCII range): letters, digits, underscore. -/
def isWordB (c : Char) : Bool :=
  c.isAlpha || c.isDigit || c = '_'

/-- Python `content.split('\n')`: split a character list at every
newline; always returns at least one (possibly empty) line. -/
def splitLines : List Char → List (List Char)
  | [] => [[]]
  | c :: rest =>
    if c = '\n' then [] :: splitLines rest
    else
      match splitLines rest with
      | [] => [[c]]
      | l :: ls => (c :: l) :: ls

/-- Python `'\n'.join(lines)`. -/
def joinLines : List (List Char) → List Char
  | [] => []
  | [l] => l
  | l :: ls => l ++ '\n' :: joinLines ls

/-- Python's substring test `pat in s`. -/
def containsSub (pat : List Char) : List Char → Bool
  | [] => pat.isPrefixOf []
  | c :: rest => pat.isPrefixOf (c :: rest) || containsSub pat rest

/-- `pat` occurs contiguously inside `cs`. -/
def SubSeg (pat cs : List Char) : Prop :=
  ∃ s t, cs = s ++ pat ++ t

/-- The field-literal opening marker searched for on each line
(`'logger.Fields{' in line`). -/
def fieldsMarker : List Char := "logger.Fields\x7b".toList

/-- The fixed manual-action marker comment prefixed to a captured block. -/
def todoMark : List Char := "// TODO: Replace logger.Fields block".toList

/-- The substring looked for in the 10-line lookback window
(`'logger := sdklog.NewLogger' in prev_line`). -/
def declMarker : List Char := "logger := sdklog.NewLogger".toList

/-- The synthesized logger-acquisition line inserted by rule 3. -/
def declLine : List Char :=
  "\tlogger := sdklog.NewLogger(\"zen-watcher-config\")".toList

/-- `line.count('{') - line.count('}')`: a line's brace balance delta. -/
def lineBal (cs : List Char) : Int :=
  (cs.count '\x7b' : Int) - (cs.count '\x7d' : Int)

/-- The block-capture loop: starting from running balance `bal` (seeded
by the marker line's own delta), keep consuming lines while the balance
is positive, adding each consumed line's delta.  Returns the consumed
lines and the remaining lines. -/
def captureBlock : List (List Char) → Int → List (List Char) × List (List Char)
  | [], _ => ([], [])
  | l :: ls, bal =>
    if 0 < bal then
      let p := captureBlock ls (bal + lineBal l)
      (l :: p.1, p.2)
    else ([], l :: ls)

/-- `re.match(r'^\s*func\s+', line)`: optional leading whitespace, the
literal `func`, then at least one whitespace character. -/
def isFuncStart (line : List Char) : Bool :=
  let u := line.dropWhile isSpaceB
  ("func".toList).isPrefixOf u &&
    (match (u.drop 4).head? with
     | some c => isSpaceB c
     | none => false)

/-- Attempt `func\s+\([^)]+\)\s+(\w+)` at the start of `cs`; returns the
captured function name.  Each greedy element is followed by a character
outside its class, so maximal munch is exact. -/
def matchFuncAt (cs : List Char) : Option (List Char) :=
  if ("func".toList).isPrefixOf cs then
    let t := cs.drop 4
    let w1 := t.takeWhile isSpaceB
    if w1.isEmpty then none
    else
      match t.drop w1.length with
      | '(' :: u =>
        let inner := u.takeWhile (fun c => c ≠ ')')
        if inner.isEmpty then none
        else
          match u.drop inner.length with
          | ')' :: v =>
            let w2 := v.takeWhile isSpaceB
            if w2.isEmpty then none
            else
              let name := (v.drop w2.length).takeWhile isWordB
              if name.isEmpty then none else some name
          | _ => none
      | _ => none
  else none

/-- `re.search(r'func\s+\([^)]+\)\s+(\w+)', line)`: leftmost match. -/
def searchFuncName : List Char → Option (List Char)
  | [] => none
  | c :: rest =>
    match matchFuncAt (c :: rest) with
    | some n => some n
    | none => searchFuncName rest

/-- The line begins (at the current position) with one of the four
severity-level invocations `logger.Info(` / `Warn` / `Error` / `Debug`. -/
def startsLoggerCall (cs : List Char) : Bool :=
  ("logger.Info(".toList).isPrefixOf cs ||
  ("logger.Warn(".toList).isPrefixOf cs ||
  ("logger.Error(".toList).isPrefixOf cs ||
  ("logger.Debug(".toList).isPrefixOf cs

/-- `re.match(r'^\s+logger\.(Info|Warn|Error|Debug)\(', line)`: at least
one leading whitespace character, then a severity-level invocation. -/
def isSolitaryLog : List Char → Bool
  | [] => false
  | c :: rest => isSpaceB c && startsLoggerCall ((c :: rest).dropWhile isSpaceB)

/-- Python `set.add`: record a name if not already present. -/
def addName (declared : List (List Char)) (n : List Char) : List (List Char) :=
  if n ∈ declared then declared else n :: declared

/-- Rule 1 bookkeeping: on a function-start line, record the receiver
function's name into the declared set. -/
def recordFunc (declared : List (List Char)) (line : List Char) : List (List Char) :=
  if isFuncStart line then
    match searchFuncName line with
    | some n => addName declared n
    | none => declared
  else declared

/-- The main `while i < len(lines)` loop of `migrate_logger_fields`.
`acc` holds the emitted output elements most-recent first (so Python's
`new_lines[-10:]` is `acc.take 10`); `declared` is the rule-1 set.  The
fuel argument bounds the iteration count; every call site supplies fuel
at least the number of remaining lines, and every iteration consumes at
least one line, so the fuel never runs out. -/
def migrateLoopF : Nat → List (List Char) → List (List Char) → List (List Char) → List (List Char)
  | 0, _, acc, _ => acc
  | _ + 1, [], acc, _ => acc
  | fuel + 1, line :: ls, acc, declared =>
    if containsSub fieldsMarker line then
      migrateLoopF fuel (captureBlock ls (lineBal line)).2
        ((todoMark ++ '\n' :: joinLines (line :: (captureBlock ls (lineBal line)).1)) :: acc)
        (recordFunc declared line)
    else if isSolitaryLog line then
      if (acc.take 10).any (fun prev => containsSub declMarker prev) then
        migrateLoopF fuel ls (line :: acc) (recordFunc declared line)
      else
        migrateLoopF fuel ls (line :: declLine :: acc) (recordFunc declared line)
    else
      migrateLoopF fuel ls (line :: acc) (recordFunc declared line)

/-- The transformer at the line level: run the scan over a list of lines
and return the emitted elements in output order. -/
def migrateLines (lines : List (List Char)) : List (List Char) :=
  (migrateLoopF lines.length lines [] []).reverse

/-- `migrate_logger_fields(content)`: split the document into lines,
run the scan, and rejoin with newlines. -/
def migrate_logger_fields (content : List Char) : List Char :=
  joinLines (migrateLines (splitLines content))

/-- Variant of the scan loop with the rule-1 bookkeeping removed
(no `declared` state at all); used to settle the claim that the
bookkeeping never influences the output. -/
def migrateLoopNoTrackF : Nat → List (List Char) → List (List Char) → List (List Char)
  | 0, _, acc => acc
  | _ + 1, [], acc => acc
  | fuel + 1, line :: ls, acc =>
    if containsSub fieldsMarker line then
      migrateLoopNoTrackF fuel (captureBlock ls (lineBal line)).2
        ((todoMark ++ '\n' :: joinLines (line :: (captureBlock ls (lineBal line)).1)) :: acc)
    else if isSolitaryLog line then
      if (acc.take 10).any (fun prev => containsSub declMarker prev) then
        migrateLoopNoTrackF fuel ls (line :: acc)
      else
        migrateLoopNoTrackF fuel ls (line :: declLine :: acc)
    else
      migrateLoopNoTrackF fuel ls (line :: acc)

/-- The transformer with rule-1 bookkeeping removed. -/
def migrate_no_bookkeeping (content : List Char) : List Char :=
  joinLines ((migrateLoopNoTrackF (splitLines content).length (splitLines content) []).reverse)

/-- The block texts consumed by rule 2 over a run of the scan, in scan
order (same recursion structure as `migrateLoopF`). -/
def consumedBlocksF : Nat → List (List Char) → List (List Char)
  | 0, _ => []
  | _ + 1, [] => []
  | fuel + 1, line :: ls =>
    if containsSub fieldsMarker line then
      joinLines (line :: (captureBlock ls (lineBal line)).1) ::
        consumedBlocksF fuel (captureBlock ls (lineBal line)).2
    else consumedBlocksF fuel ls

/-- The block texts consumed by rule 2 on a document's lines. -/
def consumedBlocks (lines : List (List Char)) : List (List Char) :=
  consumedBlocksF lines.length lines

/-- Python `str.strip()`: remove whitespace from both ends. -/
def pyStrip (cs : List Char) : List Char :=
  ((cs.dropWhile isSpaceB).reverse.dropWhile isSpaceB).reverse

/-- The backtracking engine for `\s*(G+)` where `G` is a character class
(given by `good`): try letting `\s*` consume `k` characters (largest
first, as a greedy `\s*` does), then take the maximal run of `good`
characters as the group; succeed on the first `k` giving a nonempty
group.  Returns the group and the text after the match. -/
def spacesValAux (good : Char → Bool) (t : List Char) : Nat → Option (List Char × List Char)
  | 0 =>
    let g := t.takeWhile good
    if g.isEmpty then none else some (g, t.drop g.length)
  | k + 1 =>
    let g := (t.drop (k + 1)).takeWhile good
    if g.isEmpty then spacesValAux good t k
    else some (g, (t.drop (k + 1)).drop g.length)

/-- Match `\s*(G+)` at the start of `t`: greedy `\s*` starts at the
maximal whitespace run and backtracks. -/
def matchSpacesVal (good : Char → Bool) (t : List Char) : Option (List Char × List Char) :=
  spacesValAux good t (t.takeWhile isSpaceB).length

/-- The value class `[^,\n]` of the Namespace/Source/Error patterns. -/
def valueGood (c : Char) : Bool := !(c = ',' || c = '\n')

/-- The value class `[^,\n\}]` of the key/value pair pattern. -/
def kvGood (c : Char) : Bool := !(c = ',' || c = '\n' || c = '\x7d')

/-- `re.search(key + r'\s*([^,\n]+)', rest)`: leftmost position where
the literal keyword is followed by a `\s*([^,\n]+)` match; returns the
captured group. -/
def searchKeyVal (key : List Char) : List Char → Option (List Char)
  | [] => none
  | c :: rest =>
    match (if key.isPrefixOf (c :: rest) then
             matchSpacesVal valueGood ((c :: rest).drop key.length)
           else none) with
    | some p => some p.1
    | none => searchKeyVal key rest

/-- The `Additional:` pattern's keyword literal. -/
def addlKw : List Char := "Additional:".toList

/-- The `map[string]interface{}` literal of the `Additional:` pattern. -/
def mapLit : List Char := "map[string]interface\x7b\x7d".toList

/-- The lookahead `(?=\s*\)|\s*Source:|\s*Error:|\s*Namespace:)`:
after skipping whitespace the text starts with `)` or one of the
attribute keywords. -/
def lookaheadStop (t : List Char) : Bool :=
  let u := t.dropWhile isSpaceB
  (")".toList).isPrefixOf u || ("Source:".toList).isPrefixOf u ||
  ("Error:".toList).isPrefixOf u || ("Namespace:".toList).isPrefixOf u

/-- The lazy group `(.*?)` (DOTALL) bounded by the lookahead: the
shortest prefix after which the lookahead succeeds, or failure if the
lookahead never succeeds. -/
def lazyUpTo : List Char → Option (List Char)
  | [] => if lookaheadStop [] then some [] else none
  | c :: rest =>
    if lookaheadStop (c :: rest) then some []
    else (lazyUpTo rest).map (fun g => c :: g)

/-- Attempt the `Additional:` pattern at the start of `cs`; returns the
lazy group (the map body). -/
def matchAddlAt (cs : List Char) : Option (List Char) :=
  if addlKw.isPrefixOf cs then
    let t := (cs.drop addlKw.length).dropWhile isSpaceB
    if mapLit.isPrefixOf t then lazyUpTo (t.drop mapLit.length) else none
  else none

/-- `re.search(r'Additional:\s*map\[string\]interface\{\}(.*?)(?=...)',
rest, re.DOTALL)`: leftmost match, returning the captured map body. -/
def searchAdditional : List Char → Option (List Char)
  | [] => none
  | c :: rest =>
    match matchAddlAt (c :: rest) with
    | some g => some g
    | none => searchAdditional rest

/-- Attempt `"([^"]+)":\s*([^,\n\}]+)` at the start of `cs`; returns the
key, the value, and the text after the match. -/
def matchKVAt (cs : List Char) : Option (List Char × List Char × List Char) :=
  match cs with
  | '"' :: t =>
    let k := t.takeWhile (fun c => c ≠ '"')
    if k.isEmpty then none
    else
      match t.drop k.length with
      | '"' :: ':' :: v =>
        match matchSpacesVal kvGood v with
        | some p => some (k, p.1, p.2)
        | none => none
      | _ => none
  | _ => none

/-- `re.findall(r'"([^"]+)":\s*([^,\n\}]+)', content)`: all
non-overlapping leftmost matches, scanning left to right and resuming
after each match.  The fuel (the remaining text's length at each call)
bounds the scan; every step consumes at least one character. -/
def findAllKVF : Nat → List Char → List (List Char × List Char)
  | 0, _ => []
  | _ + 1, [] => []
  | fuel + 1, c :: rest =>
    match matchKVAt (c :: rest) with
    | some p => (p.1, p.2.1) :: findAllKVF fuel p.2.2
    | none => findAllKVF fuel rest

/-- All key/value pairs matched inside the map body. -/
def findAllKV (cs : List Char) : List (List Char × List Char) :=
  findAllKVF cs.length cs

/-- `sdklog.String("<key>", <value>)`. -/
def strFieldKV (key value : List Char) : List Char :=
  "sdklog.String(\"".toList ++ key ++ "\", ".toList ++ value ++ ")".toList

/-- `sdklog.Int("<key>", <value>)`. -/
def intFieldKV (key value : List Char) : List Char :=
  "sdklog.Int(\"".toList ++ key ++ "\", ".toList ++ value ++ ")".toList

/-- `sdklog.Float64("<key>", <value>)`. -/
def floatFieldKV (key value : List Char) : List Char :=
  "sdklog.Float64(\"".toList ++ key ++ "\", ".toList ++ value ++ ")".toList

/-- `value.startswith('"') or value.startswith("'")`. -/
def startsQuote : List Char → Bool
  | [] => false
  | c :: _ => c = '"' || c = '\''

/-- `re.match(r'^\d+$', value)`: the value is a nonempty all-digit
token (the value never contains a newline). -/
def isAllDigits (v : List Char) : Bool :=
  !v.isEmpty && v.all Char.isDigit

/-- `re.match(r'^\d+\.\d+', value)`: the value starts with digits, a
dot, and at least one more digit. -/
def startsFloat (v : List Char) : Bool :=
  let d := v.takeWhile Char.isDigit
  !d.isEmpty &&
    (match v.drop d.length with
     | '.' :: c :: _ => c.isDigit
     | _ => false)

/-- The ordered first-match-wins kind classification of one key/value
pair from the catch-all map, producing the field expression. -/
def classifyField (key value : List Char) : List Char :=
  if startsQuote value then strFieldKV key value
  else if isAllDigits value then intFieldKV key value
  else if startsFloat value then floatFieldKV key value
  else strFieldKV key value

/-- `', '.join(fields)`. -/
def joinComma : List (List Char) → List Char
  | [] => []
  | [f] => f
  | f :: fs => f ++ ',' :: ' ' :: joinComma fs

/-- `sdklog.Operation("<operation>")`: the mandatory first field. -/
def operationField (operation : List Char) : List Char :=
  "sdklog.Operation(\"".toList ++ operation ++ "\")".toList

/-- `sdklog.String("namespace", <value>)`. -/
def namespaceField (v : List Char) : List Char :=
  "sdklog.String(\"namespace\", ".toList ++ v ++ ")".toList

/-- `sdklog.String("source", <value>)`. -/
def sourceField (v : List Char) : List Char :=
  "sdklog.String(\"source\", ".toList ++ v ++ ")".toList

/-- `sdklog.Error(<value>)`. -/
def errorField (v : List Char) : List Char :=
  "sdklog.Error(".toList ++ v ++ ")".toList

/-- The catch-all (`Additional:`) extraction: find the map body, list
its key/value pairs in source order, strip each value and classify. -/
def additionalFields (rest : List Char) : List (List Char) :=
  match searchAdditional rest with
  | some g => (findAllKV g).map (fun p => classifyField p.1 (pyStrip p.2))
  | none => []

/-- `replace_fields(match)`: build the replacement field list from the
captured groups — the mandatory operation field first, then the
optional namespace, source and error fields when their searches
succeed, then the catch-all pairs — and comma-join it.  The captured
component group is never used by the source. -/
def replace_fields (component operation rest : List Char) : List Char :=
  joinComma (operationField operation ::
    ((match searchKeyVal ("Namespace:".toList) rest with
      | some v => [namespaceField (pyStrip v)]
      | none => []) ++
     (match searchKeyVal ("Source:".toList) rest with
      | some v => [sourceField (pyStrip v)]
      | none => []) ++
     (match searchKeyVal ("Error:".toList) rest with
      | some v => [errorField (pyStrip v)]
      | none => []) ++
     additionalFields rest))

/-! ### Basic lemmas about line splitting and joining -/

theorem splitLines_ne_nil (cs : List Char) : splitLines cs ≠ [] := by
  cases cs with
  | nil => simp [splitLines]
  | cons c rest =>
    simp only [splitLines]
    split
    · simp
    · split <;> simp

theorem joinLines_splitLines (cs : List Char) : joinLines (splitLines cs) = cs := by
  induction cs with
  | nil => simp [splitLines, joinLines]
  | cons c rest ih =>
    by_cases hc : c = '\n'
    · subst hc
      simp only [splitLines, if_pos rfl]
      obtain ⟨l, ls, hls⟩ := List.exists_cons_of_ne_nil (splitLines_ne_nil rest)
      rw [hls] at ih ⊢
      simp [joinLines, ih]
    · simp only [splitLines, if_neg hc]
      obtain ⟨l, ls, hls⟩ := List.exists_cons_of_ne_nil (splitLines_ne_nil rest)
      rw [hls] at ih ⊢
      cases ls with
      | nil => simp_all [joinLines]
      | cons m ms => simp_all [joinLines]

/-- On a run of lines none of which contains the field-literal marker or
matches a solitary logging invocation, the loop emits every line
unchanged. -/
theorem migrateLoopF_plain (lines : List (List Char)) :
    ∀ (fuel : Nat) (acc declared : List (List Char)),
    lines.length ≤ fuel →
    (∀ l ∈ lines, containsSub fieldsMarker l = false ∧ isSolitaryLog l = false) →
    migrateLoopF fuel lines acc declared = lines.reverse ++ acc := by
  induction lines with
  | nil => intro fuel acc declared _ _; cases fuel <;> simp [migrateLoopF]
  | cons l ls ih =>
    intro fuel acc declared hfuel hplain
    cases fuel with
    | zero => simp at hfuel
    | succ f =>
      have hl := hplain l (List.mem_cons_self _ _)
      simp only [migrateLoopF, hl.1, hl.2, Bool.false_eq_true, if_false]
      rw [ih f (l :: acc) (recordFunc declared l)
        (by simpa using Nat.succ_le_succ_iff.mp hfuel)
        (fun x hx => hplain x (List.mem_cons_of_mem _ hx))]
      simp

/-- C1: for every input document in which no line contains the
field-literal opening marker `logger.Fields{` and no line matches a
solitary logging invocation at one of the four severity levels,
`migrate_logger_fields` returns the input unchanged. -/
theorem C1_no_marker_no_log_unchanged (content : List Char)
    (h : ∀ l ∈ splitLines content,
      containsSub fieldsMarker l = false ∧ isSolitaryLog l = false) :
    migrate_logger_fields content = content := by
  unfold migrate_logger_fields migrateLines
  rw [migrateLoopF_plain (splitLines content) (splitLines content).length [] []
    (Nat.le_refl _) h]
  simp [joinLines_splitLines]

/-- Witness for C1 at a concrete two-line document. -/
theorem C1_witness :
    (∀ l ∈ splitLines ("package main\nvar x = 1".toList),
      containsSub fieldsMarker l = false ∧ isSolitaryLog l = false) ∧
    migrate_logger_fields ("package main\nvar x = 1".toList) =
      "package main\nvar x = 1".toList := by
  refine ⟨by decide, C1_no_marker_no_log_unchanged _ (by decide)⟩

/-! ### C8: the rule-1 bookkeeping never influences the output -/

theorem migrateLoopF_eq_noTrack (fuel : Nat) :
    ∀ (lines acc declared : List (List Char)),
    migrateLoopF fuel lines acc declared = migrateLoopNoTrackF fuel lines acc := by
  induction fuel with
  | zero => intro lines acc declared; simp [migrateLoopF, migrateLoopNoTrackF]
  | succ f ih =>
    intro lines acc declared
    cases lines with
    | nil => simp [migrateLoopF, migrateLoopNoTrackF]
    | cons line ls =>
      simp only [migrateLoopF, migrateLoopNoTrackF]
      split
      · exact ih _ _ _
      · split
        · split <;> exact ih _ _ _
        · exact ih _ _ _

/-- C8: the per-function logger-declaration bookkeeping of rule 1 never
influences the output — on every input document the transformer
produces the same output as the variant with the function-name
recording removed, because the recorded set is never consulted by the
lookback check or any emission decision. -/
theorem C8_bookkeeping_unused (content : List Char) :
    migrate_logger_fields content = migrate_no_bookkeeping content := by
  unfold migrate_logger_fields migrate_no_bookkeeping migrateLines
  rw [migrateLoopF_eq_noTrack]

/-! ### C9: a severity call starting at column 0 never triggers insertion -/

theorem isSolitaryLog_eq_false_of_startsLoggerCall (l : List Char)
    (h : startsLoggerCall l = true) : isSolitaryLog l = false := by
  cases l with
  | nil => simp [startsLoggerCall, List.isPrefixOf] at h
  | cons c rest =>
    have hc : c = 'l' := by
      simp only [startsLoggerCall, Bool.or_eq_true] at h
      rcases h with ((h | h) | h) | h <;>
        · simp only [String.toList, List.isPrefixOf, Bool.and_eq_true, beq_iff_eq] at h
          exact h.1.symm
    subst hc
    simp [isSolitaryLog, isSpaceB]

/-- C9: a logging invocation line at one of the four severity levels
whose call starts at column 0 (no leading whitespace) never triggers
insertion of a synthesized logger-acquisition line: rule 3 applies only
to lines with at least one leading whitespace character, so a document
of otherwise-inert lines followed by such a call is returned
unchanged. -/
theorem C9_column0_call_no_insertion (pre : List (List Char)) (logLine : List Char)
    (hpre : ∀ l ∈ pre, containsSub fieldsMarker l = false ∧ isSolitaryLog l = false)
    (hcall : startsLoggerCall logLine = true)
    (hm : containsSub fieldsMarker logLine = false) :
    migrateLines (pre ++ [logLine]) = pre ++ [logLine] := by
  unfold migrateLines
  rw [migrateLoopF_plain (pre ++ [logLine]) _ [] [] (Nat.le_refl _) ?_]
  · simp
  · intro l hl
    rcases List.mem_append.mp hl with h | h
    · exact hpre l h
    · have : l = logLine := by simpa using h
      subst this
      exact ⟨hm, isSolitaryLog_eq_false_of_startsLoggerCall _ hcall⟩

/-- Witness for C9: a `logger.Error(` call at column 0 after ten inert
lines is left alone. -/
theorem C9_witness :
    (∀ l ∈ List.replicate 10 ("x := 1".toList),
      containsSub fieldsMarker l = false ∧ isSolitaryLog l = false) ∧
    startsLoggerCall ("logger.Error(\"boom\")".toList) = true ∧
    containsSub fieldsMarker ("logger.Error(\"boom\")".toList) = false ∧
    migrateLines (List.replicate 10 ("x := 1".toList) ++ [("logger.Error(\"boom\")".toList)]) =
      List.replicate 10 ("x := 1".toList) ++ [("logger.Error(\"boom\")".toList)] := by
  refine ⟨by decide, by decide, by decide, ?_⟩
  exact C9_column0_call_no_insertion _ _ (by decide) (by decide) (by decide)

/-! ### C3: the 10-line lookback controls declaration insertion -/

/-- Running the loop across an inert segment emits it unchanged and
leaves the remaining fuel for the rest. -/
theorem migrateLoopF_plain_seg (pre : List (List Char)) :
    ∀ (rest : List (List Char)) (fuel : Nat) (acc declared : List (List Char)),
    (∀ l ∈ pre, containsSub fieldsMarker l = false ∧ isSolitaryLog l = false) →
    migrateLoopF (pre.length + fuel) (pre ++ rest) acc declared =
      migrateLoopF fuel rest (pre.reverse ++ acc) (List.foldl recordFunc declared pre) := by
  induction pre with
  | nil => intro rest fuel acc declared _; simp
  | cons p pre' ih =>
    intro rest fuel acc declared hplain
    have hp := hplain p (List.mem_cons_self _ _)
    have : (p :: pre').length + fuel = (pre'.length + fuel) + 1 := by
      simp [List.length_cons]; omega
    rw [this]
    simp only [List.cons_append, migrateLoopF, hp.1, hp.2, Bool.false_eq_true, if_false,
      List.append_eq]
    rw [ih rest fuel (p :: acc) (recordFunc declared p)
      (fun x hx => hplain x (List.mem_cons_of_mem _ hx))]
    simp

/-- C3: when the scan reaches a line matching a solitary logging
invocation (after any run of lines that are emitted unchanged), exactly
one synthesized logger-acquisition line is emitted immediately before
the unchanged line if and only if none of the previous 10 emitted
output lines contains a logger-acquisition statement; when one was
emitted within the lookback window, no duplicate is inserted. -/
theorem C3_lookback_insertion (pre : List (List Char)) (logLine : List Char)
    (hpre : ∀ l ∈ pre, containsSub fieldsMarker l = false ∧ isSolitaryLog l = false)
    (hm : containsSub fieldsMarker logLine = false)
    (hl : isSolitaryLog logLine = true) :
    migrateLines (pre ++ [logLine]) =
      pre ++ (if (pre.reverse.take 10).any (fun prev => containsSub declMarker prev)
              then [logLine] else [declLine, logLine]) := by
  unfold migrateLines
  have hlen : (pre ++ [logLine]).length = pre.length + 1 := by simp
  rw [hlen, migrateLoopF_plain_seg pre [logLine] 1 [] [] hpre]
  simp only [List.append_nil, migrateLoopF, hm, Bool.false_eq_true, if_false, hl, if_true]
  split
  · simp_all [migrateLoopF]
  · simp_all [migrateLoopF]

/-- Witness for C3: ten inert lines then an indented `logger.Error(...)`
line with no declaration in the window — exactly one declaration line is
inserted immediately before it. -/
theorem C3_witness :
    (∀ l ∈ List.replicate 10 ("x := 1".toList),
      containsSub fieldsMarker l = false ∧ isSolitaryLog l = false) ∧
    containsSub fieldsMarker ("\tlogger.Error(\"boom\")".toList) = false ∧
    isSolitaryLog ("\tlogger.Error(\"boom\")".toList) = true ∧
    migrateLines (List.replicate 10 ("x := 1".toList) ++ [("\tlogger.Error(\"boom\")".toList)]) =
      List.replicate 10 ("x := 1".toList) ++ [declLine, ("\tlogger.Error(\"boom\")".toList)] := by
  refine ⟨by decide, by decide, by decide, ?_⟩
  have h := C3_lookback_insertion (List.replicate 10 ("x := 1".toList))
    ("\tlogger.Error(\"boom\")".toList) (by decide) (by decide) (by decide)
  simpa using h

/-! ### C4: totality and over-greedy capture on unbalanced blocks -/

/-- The running-balance contribution of a list of lines. -/
def balSum (lls : List (List Char)) : Int :=
  (lls.map lineBal).sum

theorem migrateLoopF_nil (fuel : Nat) (acc declared : List (List Char)) :
    migrateLoopF fuel [] acc declared = acc := by
  cases fuel <;> simp [migrateLoopF]

/-- If the running balance stays positive before every remaining line,
the block capture consumes all remaining lines. -/
theorem captureBlock_all (ls : List (List Char)) :
    ∀ (bal : Int), (∀ k, k < ls.length → 0 < bal + balSum (ls.take k)) →
    captureBlock ls bal = (ls, []) := by
  induction ls with
  | nil => intro bal _; rfl
  | cons l ls ih =>
    intro bal h
    have h0 : 0 < bal := by
      have := h 0 (by simp)
      simpa [balSum] using this
    simp only [captureBlock, if_pos h0]
    rw [ih (bal + lineBal l) ?_]
    intro k hk
    have := h (k + 1) (by simpa using Nat.succ_lt_succ hk)
    simp only [List.take_succ_cons, balSum, List.map_cons, List.sum_cons] at this
    simp only [balSum]
    omega

/-- C4: `migrate_logger_fields` is a total function by construction (a
terminating Lean definition on every input, raising nothing); moreover,
when a field-literal opening line starts a block whose running
delimiter balance stays positive before every remaining line (never
returns to zero), the block capture consumes all remaining lines of the
document, which are emitted after the manual-action marker rather than
causing a failure. -/
theorem C4_unbalanced_consumes_document (line : List Char) (ls : List (List Char))
    (hm : containsSub fieldsMarker line = true)
    (hb : ∀ k, k < ls.length → 0 < lineBal line + balSum (ls.take k)) :
    migrateLines (line :: ls) = [todoMark ++ '\n' :: joinLines (line :: ls)] := by
  unfold migrateLines
  simp only [List.length_cons, migrateLoopF, hm, if_true]
  rw [captureBlock_all ls (lineBal line) hb]
  rw [migrateLoopF_nil]
  simp

/-- Witness for C4: a marker line opening one brace that is never
closed; the single following line is swallowed into the block. -/
theorem C4_witness :
    containsSub fieldsMarker ("x := logger.Fields\x7b".toList) = true ∧
    (∀ k, k < [("y := 1".toList)].length →
      0 < lineBal ("x := logger.Fields\x7b".toList) + balSum ([("y := 1".toList)].take k)) ∧
    migrateLines (("x := logger.Fields\x7b".toList) :: [("y := 1".toList)]) =
      [todoMark ++ '\n' :: joinLines (("x := logger.Fields\x7b".toList) :: [("y := 1".toList)])] := by
  refine ⟨by decide, by decide, ?_⟩
  exact C4_unbalanced_consumes_document _ _ (by decide) (by decide)

/-! ### C2: consumed blocks are emitted verbatim after the marker -/

theorem mem_migrateLoopF_of_mem_acc (fuel : Nat) :
    ∀ (lines acc declared : List (List Char)) (x : List Char),
    x ∈ acc → x ∈ migrateLoopF fuel lines acc declared := by
  induction fuel with
  | zero => intro lines acc declared x hx; simpa [migrateLoopF] using hx
  | succ f ih =>
    intro lines acc declared x hx
    cases lines with
    | nil => simpa [migrateLoopF] using hx
    | cons line ls =>
      simp only [migrateLoopF]
      split
      · exact ih _ _ _ _ (List.mem_cons_of_mem _ hx)
      · split
        · split
          · exact ih _ _ _ _ (List.mem_cons_of_mem _ hx)
          · exact ih _ _ _ _ (List.mem_cons_of_mem _ (List.mem_cons_of_mem _ hx))
        · exact ih _ _ _ _ (List.mem_cons_of_mem _ hx)

theorem block_mem_migrateLoopF (fuel : Nat) :
    ∀ (lines acc declared : List (List Char)) (b : List Char),
    b ∈ consumedBlocksF fuel lines →
    (todoMark ++ '\n' :: b) ∈ migrateLoopF fuel lines acc declared := by
  induction fuel with
  | zero => intro lines acc declared b hb; simp [consumedBlocksF] at hb
  | succ f ih =>
    intro lines acc declared b hb
    cases lines with
    | nil => simp [consumedBlocksF] at hb
    | cons line ls =>
      by_cases hm : containsSub fieldsMarker line
      · simp only [consumedBlocksF, hm, if_true, List.mem_cons] at hb
        simp only [migrateLoopF, hm, if_true]
        rcases hb with hb | hb
        · subst hb
          exact mem_migrateLoopF_of_mem_acc f _ _ _ _ (List.mem_cons_self _ _)
        · exact ih _ _ _ _ hb
      · simp only [consumedBlocksF, hm, if_false, Bool.false_eq_true] at hb
        simp only [migrateLoopF, hm, Bool.false_eq_true, if_false]
        split
        · split <;> exact ih _ _ _ _ hb
        · exact ih _ _ _ _ hb

theorem subSeg_joinLines_of_mem (elems : List (List Char)) (x : List Char)
    (hx : x ∈ elems) : SubSeg x (joinLines elems) := by
  induction elems with
  | nil => simp at hx
  | cons e es ih =>
    rcases List.mem_cons.mp hx with h | h
    · subst h
      cases es with
      | nil => exact ⟨[], [], by simp [joinLines]⟩
      | cons f fs => exact ⟨[], '\n' :: joinLines (f :: fs), by simp [joinLines]⟩
    · cases es with
      | nil => simp at h
      | cons f fs =>
        obtain ⟨s, t, hst⟩ := ih h
        exact ⟨e ++ '\n' :: s, t, by simp [joinLines, hst]⟩

/-- C2: for every field-literal block consumed by the transformer, the
output document contains the fixed manual-action marker comment
immediately followed (after the newline) by the original block text
verbatim; the transformer never rewrites the interior call syntax of
any consumed block. -/
theorem C2_block_kept_verbatim (content b : List Char)
    (hb : b ∈ consumedBlocks (splitLines content)) :
    SubSeg (todoMark ++ '\n' :: b) (migrate_logger_fields content) := by
  unfold migrate_logger_fields migrateLines
  apply subSeg_joinLines_of_mem
  rw [List.mem_reverse]
  exact block_mem_migrateLoopF _ _ _ _ _ hb

/-- Witness for C2: a balanced two-line block (the opening line carries
one unmatched `{`, the next line closes it). -/
theorem C2_witness :
    joinLines [("x logger.Fields\x7b".toList), ("\x7d)".toList)] ∈
      consumedBlocks (splitLines ("a\nx logger.Fields\x7b\n\x7d)\nz".toList)) ∧
    SubSeg (todoMark ++ '\n' :: joinLines [("x logger.Fields\x7b".toList), ("\x7d)".toList)])
      (migrate_logger_fields ("a\nx logger.Fields\x7b\n\x7d)\nz".toList)) := by
  refine ⟨by decide, ?_⟩
  exact C2_block_kept_verbatim _ _ (by decide)

/-! ### C5: a block with only the operation attribute yields one field -/

theorem searchKeyVal_eq_none (key : List Char) :
    ∀ cs, containsSub key cs = false → searchKeyVal key cs = none := by
  intro cs
  induction cs with
  | nil => intro _; rfl
  | cons c rest ih =>
    intro h
    simp only [containsSub, Bool.or_eq_false_iff] at h
    simp only [searchKeyVal, h.1, Bool.false_eq_true, if_false]
    exact ih h.2

theorem searchAdditional_eq_none :
    ∀ cs, containsSub addlKw cs = false → searchAdditional cs = none := by
  intro cs
  induction cs with
  | nil => intro _; rfl
  | cons c rest ih =>
    intro h
    simp only [containsSub, Bool.or_eq_false_iff] at h
    simp only [searchAdditional, matchAddlAt, h.1, Bool.false_eq_true, if_false]
    exact ih h.2

/-- C5: for every block carrying the mandatory operation attribute whose
remaining text contains none of the optional attribute keywords
(`Namespace:`, `Source:`, `Error:`, `Additional:`), `replace_fields`
returns exactly one field expression — the operation field built from
the operation attribute's literal value. -/
theorem C5_operation_only (component operation rest : List Char)
    (h1 : containsSub ("Namespace:".toList) rest = false)
    (h2 : containsSub ("Source:".toList) rest = false)
    (h3 : containsSub ("Error:".toList) rest = false)
    (h4 : containsSub addlKw rest = false) :
    replace_fields component operation rest = operationField operation := by
  unfold replace_fields additionalFields
  rw [searchKeyVal_eq_none _ _ h1, searchKeyVal_eq_none _ _ h2,
    searchKeyVal_eq_none _ _ h3, searchAdditional_eq_none _ h4]
  rfl

/-- Witness for C5 at a concrete attribute-free remainder. -/
theorem C5_witness :
    containsSub ("Namespace:".toList) (", ".toList) = false ∧
    containsSub ("Source:".toList) (", ".toList) = false ∧
    containsSub ("Error:".toList) (", ".toList) = false ∧
    containsSub addlKw (", ".toList) = false ∧
    replace_fields ("cfg".toList) ("load".toList) (", ".toList) =
      operationField ("load".toList) := by
  refine ⟨by decide, by decide, by decide, by decide, ?_⟩
  exact C5_operation_only _ _ _ (by decide) (by decide) (by decide) (by decide)

/-! ### C6: kind classification of the catch-all pairs -/

/-- A remainder whose catch-all attribute contains the pairs
`"count": 42`, `"ratio": 3.14` and `"name": "x"`. -/
def restC6 : List Char :=
  (", Additional: map[string]interface\x7b\x7d\x7b\"count\": 42, \"ratio\": 3.14, \"name\": \"x\"\x7d )").toList

/-- C6: on a catch-all attribute containing `"count": 42`,
`"ratio": 3.14` and `"name": "x"`, the extraction yields, in that
order, an integer-kind field for `count`, a float-kind field for
`ratio`, and a string-kind field for `name`, classified by the ordered
first-match-wins rules. -/
theorem C6_catch_all_classification :
    additionalFields restC6 =
      [intFieldKV ("count".toList) ("42".toList),
       floatFieldKV ("ratio".toList) ("3.14".toList),
       strFieldKV ("name".toList) ("\"x\"".toList)] := by
  decide

/-! ### C7: ordering of the replacement field list -/

/-- C7: whenever all optional attributes are found, the replacement
field list begins with the operation-name field built from the block's
mandatory second attribute, followed by the optional fields in the
fixed order namespace, source, error — regardless of their textual
order in the block — followed by the catch-all key/value pairs in the
order they appear in the source text. -/
theorem C7_replacement_field_order (component operation rest nv sv ev g : List Char)
    (hn : searchKeyVal ("Namespace:".toList) rest = some nv)
    (hs : searchKeyVal ("Source:".toList) rest = some sv)
    (he : searchKeyVal ("Error:".toList) rest = some ev)
    (ha : searchAdditional rest = some g) :
    replace_fields component operation rest =
      joinComma (operationField operation ::
        namespaceField (pyStrip nv) ::
        sourceField (pyStrip sv) ::
        errorField (pyStrip ev) ::
        (findAllKV g).map (fun p => classifyField p.1 (pyStrip p.2))) := by
  unfold replace_fields additionalFields
  rw [hn, hs, he, ha]
  rfl

/-- Witness for C7 at a remainder whose attributes appear in the
textual order error, namespace, source, catch-all: the output order is
still operation, namespace, source, error, catch-all. -/
theorem C7_witness :
    searchKeyVal ("Namespace:".toList)
      ((", Error: err, Namespace: nsv, Source: src, Additional: map[string]interface\x7b\x7d\x7b\"count\": 42\x7d )").toList) = some ("nsv".toList) ∧
    searchKeyVal ("Source:".toList)
      ((", Error: err, Namespace: nsv, Source: src, Additional: map[string]interface\x7b\x7d\x7b\"count\": 42\x7d )").toList) = some ("src".toList) ∧
    searchKeyVal ("Error:".toList)
      ((", Error: err, Namespace: nsv, Source: src, Additional: map[string]interface\x7b\x7d\x7b\"count\": 42\x7d )").toList) = some ("err".toList) ∧
    searchAdditional
      ((", Error: err, Namespace: nsv, Source: src, Additional: map[string]interface\x7b\x7d\x7b\"count\": 42\x7d )").toList) = some (("\x7b\"count\": 42\x7d").toList) ∧
    replace_fields ("cfg".toList) ("load".toList)
      ((", Error: err, Namespace: nsv, Source: src, Additional: map[string]interface\x7b\x7d\x7b\"count\": 42\x7d )").toList) =
      joinComma (operationField ("load".toList) ::
        namespaceField (pyStrip ("nsv".toList)) ::
        sourceField (pyStrip ("src".toList)) ::
        errorField (pyStrip ("err".toList)) ::
        (findAllKV (("\x7b\"count\": 42\x7d").toList)).map
          (fun p => classifyField p.1 (pyStrip p.2))) := by
  refine ⟨by decide, by decide, by decide, by decide, ?_⟩
  exact C7_replacement_field_order _ _ _ _ _ _ _ (by decide) (by decide) (by decide) (by decide)

/-! ### C10: the transformer only inserts, never deletes or edits -/

theorem captureBlock_append (ls : List (List Char)) :
    ∀ bal, (captureBlock ls bal).1 ++ (captureBlock ls bal).2 = ls := by
  induction ls with
  | nil => intro bal; rfl
  | cons l ls ih =>
    intro bal
    simp only [captureBlock]
    split
    · simpa using ih (bal + lineBal l)
    · rfl

theorem nl_not_mem_splitLines (cs : List Char) :
    ∀ l ∈ splitLines cs, '\n' ∉ l := by
  induction cs with
  | nil => intro l hl; simp [splitLines] at hl; simp [hl]
  | cons c rest ih =>
    intro l hl
    by_cases hc : c = '\n'
    · subst hc
      simp only [splitLines, List.mem_cons, reduceIte] at hl
      rcases hl with h | h
      · simp [h]
      · exact ih l h
    · simp only [splitLines, if_neg hc] at hl
      obtain ⟨m, ms, hms⟩ := List.exists_cons_of_ne_nil (splitLines_ne_nil rest)
      rw [hms] at hl
      simp only [List.mem_cons] at hl
      rcases hl with h | h
      · subst h
        intro hmem
        rcases List.mem_cons.mp hmem with h | h
        · exact hc h.symm
        · exact ih m (by rw [hms]; exact List.mem_cons_self _ _) h
      · exact ih l (by rw [hms]; exact List.mem_cons_of_mem _ h)

theorem splitLines_of_nl_free (l : List Char) (h : '\n' ∉ l) :
    splitLines l = [l] := by
  induction l with
  | nil => rfl
  | cons c rest ih =>
    have hc : ¬ c = '\n' := fun hc => h (by simp [hc])
    have hrest : '\n' ∉ rest := fun hr => h (List.mem_cons_of_mem _ hr)
    simp only [splitLines, if_neg hc, ih hrest]

theorem splitLines_append_nl (x y : List Char) :
    splitLines (x ++ '\n' :: y) = splitLines x ++ splitLines y := by
  induction x with
  | nil => simp [splitLines]
  | cons c x' ih =>
    by_cases hc : c = '\n'
    · subst hc
      simp only [List.cons_append, splitLines, reduceIte, List.append_eq, ih]
    · obtain ⟨m, ms, hms⟩ := List.exists_cons_of_ne_nil (splitLines_ne_nil x')
      simp only [List.cons_append, splitLines, if_neg hc, List.append_eq, ih, hms]

/-- Split every emitted element and concatenate the results: the lines
of the final document. -/
def splitAll (elems : List (List Char)) : List (List Char) :=
  elems.foldr (fun e acc => splitLines e ++ acc) []

theorem splitAll_of_nl_free (lls : List (List Char))
    (h : ∀ l ∈ lls, '\n' ∉ l) : splitAll lls = lls := by
  induction lls with
  | nil => rfl
  | cons e es ih =>
    simp only [splitAll, List.foldr_cons]
    rw [splitLines_of_nl_free e (h e (List.mem_cons_self _ _))]
    have := ih (fun l hl => h l (List.mem_cons_of_mem _ hl))
    simp only [splitAll] at this
    simp [this]

theorem splitLines_joinLines (elems : List (List Char)) (h : elems ≠ []) :
    splitLines (joinLines elems) = splitAll elems := by
  induction elems with
  | nil => exact absurd rfl h
  | cons e es ih =>
    cases es with
    | nil => simp [joinLines, splitAll]
    | cons f fs =>
      simp only [joinLines, splitLines_append_nl, splitAll, List.foldr_cons]
      rw [ih (by simp)]
      rfl

/-- The core insertion-only invariant: the loop's final accumulator is
the untouched incoming accumulator prefixed (in reverse) by new
elements, and the input lines form a sublist of the lines obtained by
splitting the new elements in emission order. -/
theorem migrateLoopF_sublist (fuel : Nat) :
    ∀ (lines acc declared : List (List Char)),
    lines.length ≤ fuel →
    (∀ l ∈ lines, '\n' ∉ l) →
    ∃ ems, migrateLoopF fuel lines acc declared = ems ++ acc ∧
      lines.Sublist (splitAll ems.reverse) := by
  induction fuel with
  | zero =>
    intro lines acc declared hfuel _
    have : lines = [] := List.length_eq_zero.mp (Nat.le_zero.mp hfuel)
    subst this
    exact ⟨[], by simp [migrateLoopF], by simp [splitAll]⟩
  | succ f ih =>
    intro lines acc declared hfuel hnl
    cases lines with
    | nil => exact ⟨[], by simp [migrateLoopF], by simp [splitAll]⟩
    | cons line ls =>
      have hfuel' : ls.length ≤ f := Nat.succ_le_succ_iff.mp (by simpa using hfuel)
      by_cases hm : containsSub fieldsMarker line
      · have hsplit := captureBlock_append ls (lineBal line)
        have hlen2 : (captureBlock ls (lineBal line)).2.length ≤ f := by
          have : (captureBlock ls (lineBal line)).2.length ≤ ls.length := by
            conv_rhs => rw [← hsplit]
            simp
          omega
        have hnl2 : ∀ l ∈ (captureBlock ls (lineBal line)).2, '\n' ∉ l := by
          intro l hl
          apply hnl
          apply List.mem_cons_of_mem
          rw [← hsplit]
          exact List.mem_append_right _ hl
        obtain ⟨ems', h1, h2⟩ := ih (captureBlock ls (lineBal line)).2
          ((todoMark ++ '\n' :: joinLines (line :: (captureBlock ls (lineBal line)).1)) :: acc)
          (recordFunc declared line) hlen2 hnl2
        refine ⟨ems' ++ [todoMark ++ '\n' :: joinLines (line :: (captureBlock ls (lineBal line)).1)], ?_, ?_⟩
        · simp only [migrateLoopF, hm, if_true, h1, List.append_assoc, List.cons_append,
            List.nil_append]
        · have hnl1 : ∀ l ∈ line :: (captureBlock ls (lineBal line)).1, '\n' ∉ l := by
            intro l hl
            rcases List.mem_cons.mp hl with h | h
            · rw [h]; exact hnl line (List.mem_cons_self _ _)
            · apply hnl
              apply List.mem_cons_of_mem
              rw [← hsplit]
              exact List.mem_append_left _ h
          have hsplitelem :
              splitLines (todoMark ++ '\n' :: joinLines (line :: (captureBlock ls (lineBal line)).1)) =
                todoMark :: line :: (captureBlock ls (lineBal line)).1 := by
            rw [splitLines_append_nl, splitLines_joinLines _ (by simp),
              splitAll_of_nl_free _ hnl1, splitLines_of_nl_free todoMark (by decide)]
            rfl
          simp only [List.reverse_append, List.reverse_cons, List.reverse_nil,
            List.nil_append, List.cons_append, splitAll, List.foldr_cons, hsplitelem]
          have hgoal : List.Sublist
              ((line :: (captureBlock ls (lineBal line)).1) ++ (captureBlock ls (lineBal line)).2)
              ((line :: (captureBlock ls (lineBal line)).1) ++ splitAll ems'.reverse) :=
            List.Sublist.append (List.Sublist.refl _) h2
          rw [show (line :: (captureBlock ls (lineBal line)).1) ++
              (captureBlock ls (lineBal line)).2 = line :: ls by simp [hsplit]] at hgoal
          exact hgoal.cons todoMark
      · have hnl' : ∀ l ∈ ls, '\n' ∉ l := fun l hl => hnl l (List.mem_cons_of_mem _ hl)
        have hnlline : '\n' ∉ line := hnl line (List.mem_cons_self _ _)
        by_cases hs : isSolitaryLog line
        · by_cases hlb : (acc.take 10).any (fun prev => containsSub declMarker prev)
          · obtain ⟨ems', h1, h2⟩ := ih ls (line :: acc) (recordFunc declared line) hfuel' hnl'
            refine ⟨ems' ++ [line], ?_, ?_⟩
            · simp only [migrateLoopF, hm, Bool.false_eq_true, if_false, hs, if_true, hlb,
                h1, List.append_assoc, List.cons_append, List.nil_append]
            · simp only [List.reverse_append, List.reverse_cons, List.reverse_nil,
                List.nil_append, List.cons_append, splitAll, List.foldr_cons]
              rw [splitLines_of_nl_free line hnlline]
              exact List.Sublist.cons₂ line h2
          · obtain ⟨ems', h1, h2⟩ := ih ls (line :: declLine :: acc) (recordFunc declared line) hfuel' hnl'
            refine ⟨ems' ++ [line, declLine], ?_, ?_⟩
            · simp only [migrateLoopF, hm, Bool.false_eq_true, if_false, hs, if_true, hlb,
                h1, List.append_assoc, List.cons_append, List.nil_append]
            · simp only [List.reverse_append, List.reverse_cons, List.reverse_nil,
                List.nil_append, List.cons_append, splitAll, List.foldr_cons]
              rw [splitLines_of_nl_free line hnlline, splitLines_of_nl_free declLine (by decide)]
              exact (List.Sublist.cons₂ line h2).cons declLine
        · obtain ⟨ems', h1, h2⟩ := ih ls (line :: acc) (recordFunc declared line) hfuel' hnl'
          refine ⟨ems' ++ [line], ?_, ?_⟩
          · simp only [migrateLoopF, hm, Bool.false_eq_true, if_false, hs, h1,
              List.append_assoc, List.cons_append, List.nil_append]
          · simp only [List.reverse_append, List.reverse_cons, List.reverse_nil,
              List.nil_append, List.cons_append, splitAll, List.foldr_cons]
            rw [splitLines_of_nl_free line hnlline]
            exact List.Sublist.cons₂ line h2

/-- C10: the transformer only inserts text, never deletes or edits
existing lines — for every input document, every line of the input
appears verbatim and in its original relative order among the lines of
the output document. -/
theorem C10_insertion_only (content : List Char) :
    (splitLines content).Sublist (splitLines (migrate_logger_fields content)) := by
  obtain ⟨ems, h1, h2⟩ := migrateLoopF_sublist (splitLines content).length
    (splitLines content) [] [] (Nat.le_refl _) (nl_not_mem_splitLines content)
  have hne : ems ≠ [] := by
    intro h
    subst h
    have : splitLines content = [] := by
      simpa [splitAll] using List.sublist_nil.mp h2
    exact splitLines_ne_nil content this
  unfold migrate_logger_fields migrateLines
  rw [h1]
  simp only [List.append_nil]
  rw [splitLines_joinLines ems.reverse (by simpa using hne)]
  exact h2
